import Mathlib

/-!
Verification of the silence-removal tool `jumpcutter-rs` (src/main.rs).

Shallow embedding notes:
- Lines of the external engine's diagnostic stream are modelled as `List Char`.
  Rust's `str::find` returns a byte offset that is always a char boundary at
  the start of the needle, and the program only uses it to take the suffix of
  the line beginning at the needle, so modelling positions as character
  indices and suffix-taking as `List.drop` is faithful.
- `f32` timestamps are modelled as exact rationals. The parser model
  `parseF32` follows the finite-value grammar accepted by Rust's
  `f32::from_str` (optional sign, decimal digits with optional fractional
  part, optional decimal exponent); the non-finite literals (inf, nan) have no
  rational value and are outside the model. Rounding to binary floating point
  is not modelled: all claims under study concern control flow, ordering and
  comparisons with the 0.01 threshold, not rounding behaviour.
- Side effects (temporary-directory creation, manifest writes, extraction
  sub-process invocations, the final concatenation) are modelled as an ordered
  trace of `Effect`s in the order main requests them, under the assumption
  that the external invocations succeed; any failure aborts the whole run, so
  the successful trace is the one the claims quantify over.
-/

/-- First index (character offset) at which `needle` occurs in the haystack;
model of Rust `str::find`. -/
def findSub (needle : List Char) : List Char → Option Nat
  | [] => if needle.isEmpty then some 0 else none
  | c :: rest =>
    if needle.isPrefixOf (c :: rest) then some 0
    else (findSub needle rest).map (· + 1)

/-- Not-whitespace test used to delimit tokens. -/
def notWs (c : Char) : Bool := !c.isWhitespace

/-- Model of `s.split_whitespace().nth(1)`: the second maximal run of
non-whitespace characters, `none` when there are fewer than two tokens. -/
def secondToken (l : List Char) : Option (List Char) :=
  let afterFirst := (l.dropWhile Char.isWhitespace).dropWhile notWs
  let t1 := (afterFirst.dropWhile Char.isWhitespace).takeWhile notWs
  if t1.isEmpty then none else some t1

/-- Numeric value of a decimal digit character. -/
def digitVal (c : Char) : Nat := c.toNat - 48

/-- Value of a string of decimal digits, most significant first. -/
def digitsToNat (l : List Char) : Nat := l.foldl (fun a c => 10 * a + digitVal c) 0

/-- All characters are decimal digits. -/
def allDigits (l : List Char) : Bool := l.all Char.isDigit

/-- Strip one optional leading sign; returns (isNegative, rest). -/
def splitSign (l : List Char) : Bool × List Char :=
  match l with
  | [] => (false, [])
  | c :: r => if c == '+' then (false, r) else if c == '-' then (true, r) else (false, l)

/-- Exponent marker characters. -/
def isExpChar (c : Char) : Bool := c == 'e' || c == 'E'

/-- Parse the mantissa: `digits`, `digits.digits`, `digits.` or `.digits`
(at least one digit overall). -/
def parseMantissa (l : List Char) : Option ℚ :=
  let ip := l.takeWhile (fun c => !(c == '.'))
  let rest := l.dropWhile (fun c => !(c == '.'))
  match rest with
  | [] => if !ip.isEmpty && allDigits ip then some (digitsToNat ip : ℚ) else none
  | _ :: fp =>
    if (allDigits ip && allDigits fp) && !(ip.isEmpty && fp.isEmpty) then
      some ((digitsToNat ip : ℚ) + (digitsToNat fp : ℚ) / (10 : ℚ) ^ fp.length)
    else none

/-- Parse the exponent part: empty, or an exponent marker followed by an
optionally signed nonempty digit string. -/
def parseExpPart (l : List Char) : Option ℤ :=
  match l with
  | [] => some 0
  | _ :: es =>
    let p := splitSign es
    if !p.2.isEmpty && allDigits p.2 then
      some (if p.1 then -(digitsToNat p.2 : ℤ) else (digitsToNat p.2 : ℤ))
    else none

/-- Model of Rust `str::parse::<f32>()` on finite decimal literals, as an
exact rational; `none` models a parse failure. -/
def parseF32 (l : List Char) : Option ℚ :=
  let p := splitSign l
  let mant := p.2.takeWhile (fun c => !isExpChar c)
  let expPart := p.2.dropWhile (fun c => !isExpChar c)
  match parseMantissa mant, parseExpPart expPart with
  | some m, some e =>
    let v := m * (10 : ℚ) ^ e
    some (if p.1 then -v else v)
  | _, _ => none

/-- The `silence_start` marker searched for by main.rs (with trailing space). -/
def startNeedle : List Char := "silence_start: ".data

/-- The `silence_end` marker searched for by main.rs (with trailing space). -/
def endNeedle : List Char := "silence_end: ".data

/-- How a diagnostic line is classified by the scan loop of main.rs.
The `silence_start` needle is looked up first; only lines that do not
contain it are tested for `silence_end` (this mirrors the if/else-if in the
source). A marker whose following token does not parse yields `other`. -/
inductive LineClass
  | isStart (t : ℚ)
  | isEnd (t : ℚ)
  | other
  deriving DecidableEq

/-- Classification of one line, mirroring the nested `if let` chain of
main.rs: `line.find("silence_start: ")`, then
`line[pos..].split_whitespace().nth(1)`, then `parse::<f32>()`; on failure of
the start branch the end branch is NOT tried (else-if). -/
def classify (line : List Char) : LineClass :=
  match findSub startNeedle line with
  | some pos =>
    match (secondToken (line.drop pos)).bind parseF32 with
    | some t => LineClass.isStart t
    | none => LineClass.other
  | none =>
    match findSub endNeedle line with
    | some pos =>
      match (secondToken (line.drop pos)).bind parseF32 with
      | some t => LineClass.isEnd t
      | none => LineClass.other
    | none => LineClass.other

/-- A kept (non-silent) interval, as emitted by the extractor. `uniq` is the
0-based index of the diagnostic line that triggered the emission (the
`enumerate()` counter in main.rs), used to name the sub-clip file. -/
structure KeepInterval where
  start : ℚ
  duration : ℚ
  uniq : Nat
  deriving DecidableEq

/-- One step of the scan loop: given the current `last_silence_end` state and
the line index, process one line; returns the new state and the emitted
interval, if any. An interval is emitted exactly when the line is a
well-formed `silence_start` line whose timestamp differs from the state by
strictly more than 0.01. -/
def processLine (se : ℚ) (uniq : Nat) (line : List Char) : ℚ × Option KeepInterval :=
  match classify line with
  | LineClass.isStart t =>
    if |t - se| > 1 / 100 then (se, some ⟨se, t - se, uniq⟩) else (se, none)
  | LineClass.isEnd t => (t, none)
  | LineClass.other => (se, none)

/-- The scan loop from state `se` and line index `u`: the list of emitted
KeepIntervals in emission order. -/
def scanFrom (se : ℚ) (u : Nat) : List (List Char) → List KeepInterval
  | [] => []
  | l :: ls =>
    match processLine se u l with
    | (se2, some k) => k :: scanFrom se2 (u + 1) ls
    | (se2, none) => scanFrom se2 (u + 1) ls

/-- All KeepIntervals emitted for a diagnostic stream, from the initial state
`silence_end = 0.0` and line index 0. -/
def keepIntervals (lines : List (List Char)) : List KeepInterval :=
  scanFrom 0 0 lines

/-- Lowercase hexadecimal digit character for a value below 16. -/
def hexDigitChar (n : Nat) : Char :=
  if n < 10 then Char.ofNat (48 + n) else Char.ofNat (87 + n)

/-- Lowercase hexadecimal rendering, fuel-indexed so that it is structurally
recursive (the fuel `n + 1` in `toHex` always suffices). -/
def toHexAux : Nat → Nat → List Char
  | 0, _ => []
  | fuel + 1, n =>
    if n < 16 then [hexDigitChar n]
    else toHexAux fuel (n / 16) ++ [hexDigitChar (n % 16)]

/-- Lowercase hexadecimal rendering of a natural number, no padding. -/
def toHex (n : Nat) : List Char := toHexAux (n + 1) n

/-- Rendering of the `08x` format used for piece names: lowercase hex,
left-padded with zeros to width at least 8. -/
def hexPad8 (n : Nat) : List Char :=
  List.replicate (8 - (toHex n).length) '0' ++ toHex n

/-- File name of the sub-clip for line index `uniq` (piece-XXXXXXXX.mkv). -/
def pieceName (uniq : Nat) : List Char :=
  "piece-".data ++ hexPad8 uniq ++ ".mkv".data

/-- Full path of the sub-clip inside the temporary directory. -/
def piecePath (tempdir : List Char) (uniq : Nat) : List Char :=
  tempdir ++ ('/' :: pieceName uniq)

/-- The version header line written to the concat manifest before the scan. -/
def headerLine : List Char := "ffconcat version 1.0".data

/-- The manifest line written for one kept interval. -/
def fileLine (tempdir : List Char) (uniq : Nat) : List Char :=
  "file ".data ++ piecePath tempdir uniq

/-- Side effects of a run, in the order main.rs requests them. -/
inductive Effect
  | mkTempDir
  | createManifestFile
  | writeManifest (line : List Char)
  | spawnScan
  | extract (ss : ℚ) (t : ℚ) (dest : List Char)
  | concatPieces
  deriving DecidableEq

/-- Trace of the scan loop: for each emitted interval, first a manifest write
of its `file` line, then the extraction sub-invocation with `-ss start`,
`-t duration` and the piece path as destination (in main.rs the manifest
write happens just before the extraction is spawned). -/
def runFrom (se : ℚ) (u : Nat) (tempdir : List Char) : List (List Char) → List Effect
  | [] => []
  | l :: ls =>
    match processLine se u l with
    | (se2, some k) =>
      Effect.writeManifest (fileLine tempdir k.uniq) ::
        Effect.extract k.start k.duration (piecePath tempdir k.uniq) ::
          runFrom se2 (u + 1) tempdir ls
    | (se2, none) => runFrom se2 (u + 1) tempdir ls

/-- Inputs of a run that matter to the claims: whether the output path
already exists, the temporary-directory path the run would use, and the
diagnostic lines the silence scan would produce. -/
structure Env where
  outputExists : Bool
  tempdir : List Char
  lines : List (List Char)

/-- The effect trace of a run that passes the output-exists guard: create the
temporary directory, create the manifest file, write its header line, spawn
the silence scan, run the scan loop, and finally invoke concatenation. -/
def fullTrace (env : Env) : List Effect :=
  Effect.mkTempDir :: Effect.createManifestFile :: Effect.writeManifest headerLine ::
    Effect.spawnScan :: (runFrom 0 0 env.tempdir env.lines ++ [Effect.concatPieces])

/-- Model of `main`: if the output path already exists the program exits with
code 1 having performed no side effect; otherwise it performs the full trace.
The pair is (exit code if the run terminated early, effects performed). -/
def mainRun (env : Env) : Option Nat × List Effect :=
  if env.outputExists then (some 1, []) else (none, fullTrace env)

/-- The manifest contents determined by a trace: the manifest lines in write
order. -/
def manifestOf (tr : List Effect) : List (List Char) :=
  tr.filterMap fun a =>
    match a with
    | Effect.writeManifest s => some s
    | _ => none

/-- The extraction sub-invocations of a trace, in invocation order:
(start offset, duration, destination path). -/
def extractionsOf (tr : List Effect) : List (ℚ × ℚ × List Char) :=
  tr.filterMap fun a =>
    match a with
    | Effect.extract ss t dest => some (ss, t, dest)
    | _ => none

/-- A silence marker, for stating the spec's stream-level properties. -/
inductive SpecMarker
  | sstart (t : ℚ)
  | send (t : ℚ)
  deriving DecidableEq

/-- The marker carried by a line, if any, under the code's classification. -/
def markerOfLine (l : List Char) : Option SpecMarker :=
  match classify l with
  | LineClass.isStart t => some (SpecMarker.sstart t)
  | LineClass.isEnd t => some (SpecMarker.send t)
  | LineClass.other => none

/-- The marker subsequence of a diagnostic stream, in stream order. -/
def markersOf (lines : List (List Char)) : List SpecMarker :=
  lines.filterMap markerOfLine

/-- Written from the spec's words (§8, "the emitted KeepIntervals are exactly
the complement of the silent spans"): one (start, duration) pair per
`silence_start` marker, with start the most recently seen `silence_end`
timestamp (`lastEnd`, 0.0 initially) and duration the difference. This is
the spec-side description that the code is compared against. -/
def specComplement (lastEnd : ℚ) : List SpecMarker → List (ℚ × ℚ)
  | [] => []
  | SpecMarker.sstart t :: ms => (lastEnd, t - lastEnd) :: specComplement lastEnd ms
  | SpecMarker.send t :: ms => specComplement t ms

/-- Whether a marker is a `silence_start` marker. -/
def isStartMarker : SpecMarker → Bool
  | SpecMarker.sstart _ => true
  | SpecMarker.send _ => false

/-- The timestamp of a marker. -/
def tsOf : SpecMarker → ℚ
  | SpecMarker.sstart t => t
  | SpecMarker.send t => t

/-- The markers strictly alternate between the two kinds. -/
def alternatingB : List SpecMarker → Bool
  | [] => true
  | [_] => true
  | a :: b :: ms => (isStartMarker a != isStartMarker b) && alternatingB (b :: ms)

/-- The marker timestamps are strictly increasing. -/
def increasingB : List SpecMarker → Bool
  | [] => true
  | [_] => true
  | a :: b :: ms => decide (tsOf a < tsOf b) && increasingB (b :: ms)

/-- Every `silence_start` marker differs from the silence_end state current
at that point (initially `le`) by strictly more than 0.01. -/
def gapsLargeB (le : ℚ) : List SpecMarker → Bool
  | [] => true
  | SpecMarker.sstart t :: ms => decide (|t - le| > 1 / 100) && gapsLargeB le ms
  | SpecMarker.send t :: ms => gapsLargeB t ms

/-- Stream well-formedness used for the amended invariant claim: every parsed
`silence_end` timestamp is nonnegative and every parsed `silence_start`
timestamp is at least the silence_end state current at that point. -/
def wfFrom (se : ℚ) : List (List Char) → Bool
  | [] => true
  | l :: ls =>
    match classify l with
    | LineClass.isStart t => decide (se ≤ t) && wfFrom se ls
    | LineClass.isEnd t => decide (0 ≤ t) && wfFrom t ls
    | LineClass.other => wfFrom se ls

/-! ### Step lemmas for the scan loop -/

lemma processLine_end {line : List Char} {t : ℚ} (se : ℚ) (u : Nat)
    (h : classify line = LineClass.isEnd t) : processLine se u line = (t, none) := by
  simp only [processLine, h]

lemma processLine_other {line : List Char} (se : ℚ) (u : Nat)
    (h : classify line = LineClass.other) : processLine se u line = (se, none) := by
  simp only [processLine, h]

lemma processLine_start_emit {line : List Char} {t : ℚ} (se : ℚ) (u : Nat)
    (h : classify line = LineClass.isStart t) (hg : |t - se| > 1 / 100) :
    processLine se u line = (se, some ⟨se, t - se, u⟩) := by
  simp only [processLine, h]; rw [if_pos hg]

lemma processLine_start_skip {line : List Char} {t : ℚ} (se : ℚ) (u : Nat)
    (h : classify line = LineClass.isStart t) (hg : ¬(|t - se| > 1 / 100)) :
    processLine se u line = (se, none) := by
  simp only [processLine, h]; rw [if_neg hg]

/-- Every emission carries the state as its start, leaves the state unchanged
and stamps the current line index. -/
lemma processLine_emit_eq {se : ℚ} {u : Nat} {l : List Char} {se2 : ℚ} {k : KeepInterval}
    (h : processLine se u l = (se2, some k)) :
    se2 = se ∧ k.start = se ∧ k.uniq = u := by
  cases hc : classify l
  case isStart t =>
    by_cases hg : |t - se| > 1 / 100
    · rw [processLine_start_emit se u hc hg, Prod.mk.injEq] at h
      obtain ⟨h1, h2⟩ := h
      have h3 := Option.some.inj h2
      subst h1; subst h3
      exact ⟨rfl, rfl, rfl⟩
    · rw [processLine_start_skip se u hc hg, Prod.mk.injEq] at h
      exact absurd h.2 (by simp)
  case isEnd t =>
    rw [processLine_end se u hc, Prod.mk.injEq] at h
    exact absurd h.2 (by simp)
  case other =>
    rw [processLine_other se u hc, Prod.mk.injEq] at h
    exact absurd h.2 (by simp)

lemma scanFrom_nil (se : ℚ) (u : Nat) : scanFrom se u [] = [] := rfl

lemma scanFrom_cons_emit {se : ℚ} {u : Nat} {l : List Char} {se2 : ℚ} {k : KeepInterval}
    {ls : List (List Char)} (h : processLine se u l = (se2, some k)) :
    scanFrom se u (l :: ls) = k :: scanFrom se2 (u + 1) ls := by
  simp only [scanFrom, h]

lemma scanFrom_cons_skip {se : ℚ} {u : Nat} {l : List Char} {se2 : ℚ}
    {ls : List (List Char)} (h : processLine se u l = (se2, none)) :
    scanFrom se u (l :: ls) = scanFrom se2 (u + 1) ls := by
  simp only [scanFrom, h]

lemma runFrom_nil (se : ℚ) (u : Nat) (td : List Char) : runFrom se u td [] = [] := rfl

lemma runFrom_cons_emit {se : ℚ} {u : Nat} {l : List Char} {se2 : ℚ} {k : KeepInterval}
    {ls : List (List Char)} (td : List Char) (h : processLine se u l = (se2, some k)) :
    runFrom se u td (l :: ls) =
      Effect.writeManifest (fileLine td k.uniq) ::
        Effect.extract k.start k.duration (piecePath td k.uniq) ::
          runFrom se2 (u + 1) td ls := by
  simp only [runFrom, h]

lemma runFrom_cons_skip {se : ℚ} {u : Nat} {l : List Char} {se2 : ℚ}
    {ls : List (List Char)} (td : List Char) (h : processLine se u l = (se2, none)) :
    runFrom se u td (l :: ls) = runFrom se2 (u + 1) td ls := by
  simp only [runFrom, h]

/-- A line that contains the `silence_start` needle is never classified as a
`silence_end` line: the start branch is tried first and does not fall
through. -/
lemma classify_not_end_of_start {line : List Char}
    (h : (findSub startNeedle line).isSome = true) :
    ∀ t : ℚ, classify line ≠ LineClass.isEnd t := by
  intro t hc
  cases hf : findSub startNeedle line with
  | none => rw [hf] at h; exact absurd h (by simp)
  | some pos =>
    cases hp : (secondToken (line.drop pos)).bind parseF32 with
    | none => simp only [classify, hf, hp] at hc; exact LineClass.noConfusion hc
    | some q => simp only [classify, hf, hp] at hc; exact LineClass.noConfusion hc

/-- A line with neither marker is classified `other`. -/
lemma classify_other_of_no_markers {line : List Char}
    (h1 : findSub startNeedle line = none) (h2 : findSub endNeedle line = none) :
    classify line = LineClass.other := by
  rw [classify, h1, h2]

/-! ### markersOf unfolding -/

lemma markersOf_nil : markersOf [] = [] := rfl

lemma markersOf_cons_start {l : List Char} {t : ℚ} (ls : List (List Char))
    (h : classify l = LineClass.isStart t) :
    markersOf (l :: ls) = SpecMarker.sstart t :: markersOf ls := by
  simp [markersOf, markerOfLine, h]

lemma markersOf_cons_end {l : List Char} {t : ℚ} (ls : List (List Char))
    (h : classify l = LineClass.isEnd t) :
    markersOf (l :: ls) = SpecMarker.send t :: markersOf ls := by
  simp [markersOf, markerOfLine, h]

lemma markersOf_cons_other {l : List Char} (ls : List (List Char))
    (h : classify l = LineClass.other) :
    markersOf (l :: ls) = markersOf ls := by
  simp [markersOf, markerOfLine, h]

/-! ### Scan-level lemmas -/

/-- The scan projected to (start, duration) agrees with the spec-side
complement description whenever every start marker clears the 0.01 threshold
against the running silence_end state. -/
lemma scanFrom_eq_specComplement :
    ∀ (lines : List (List Char)) (se : ℚ) (u : Nat),
      gapsLargeB se (markersOf lines) = true →
      (scanFrom se u lines).map (fun k => (k.start, k.duration)) =
        specComplement se (markersOf lines) := by
  intro lines
  induction lines with
  | nil => intro se u _; rfl
  | cons l ls ih =>
    intro se u hg
    cases hc : classify l
    case isStart t =>
      rw [markersOf_cons_start ls hc] at hg ⊢
      rw [gapsLargeB, Bool.and_eq_true] at hg
      have h1 : |t - se| > 1 / 100 := of_decide_eq_true hg.1
      have h2 := hg.2
      rw [scanFrom_cons_emit (processLine_start_emit se u hc h1), List.map_cons,
        specComplement, ih se (u + 1) h2]
    case isEnd t =>
      rw [markersOf_cons_end ls hc] at hg ⊢
      rw [gapsLargeB] at hg
      rw [scanFrom_cons_skip (processLine_end se u hc), specComplement]
      exact ih t (u + 1) hg
    case other =>
      rw [markersOf_cons_other ls hc] at hg ⊢
      rw [scanFrom_cons_skip (processLine_other se u hc)]
      exact ih se (u + 1) hg

/-- Under the stream well-formedness assumption, every emitted interval has
positive duration and nonnegative start. -/
lemma scanFrom_wf_pos :
    ∀ (lines : List (List Char)) (se : ℚ) (u : Nat),
      0 ≤ se → wfFrom se lines = true →
      ∀ k ∈ scanFrom se u lines, 0 < k.duration ∧ 0 ≤ k.start := by
  intro lines
  induction lines with
  | nil => intro se u _ _ k hk; exact absurd hk (by simp [scanFrom_nil])
  | cons l ls ih =>
    intro se u hse hw k hk
    cases hc : classify l
    case isStart t =>
      simp only [wfFrom, hc, Bool.and_eq_true] at hw
      have hle : se ≤ t := of_decide_eq_true hw.1
      have hw2 := hw.2
      by_cases hgap : |t - se| > 1 / 100
      · rw [scanFrom_cons_emit (processLine_start_emit se u hc hgap)] at hk
        rcases List.mem_cons.mp hk with h | h
        · subst h
          refine ⟨?_, hse⟩
          have habs : |t - se| = t - se := abs_of_nonneg (by linarith)
          show (0 : ℚ) < t - se
          rw [habs] at hgap
          linarith
        · exact ih se (u + 1) hse hw2 k h
      · rw [scanFrom_cons_skip (processLine_start_skip se u hc hgap)] at hk
        exact ih se (u + 1) hse hw2 k hk
    case isEnd t =>
      simp only [wfFrom, hc, Bool.and_eq_true] at hw
      have h0t : 0 ≤ t := of_decide_eq_true hw.1
      have hw2 := hw.2
      rw [scanFrom_cons_skip (processLine_end se u hc)] at hk
      exact ih t (u + 1) h0t hw2 k hk
    case other =>
      simp only [wfFrom, hc] at hw
      rw [scanFrom_cons_skip (processLine_other se u hc)] at hk
      exact ih se (u + 1) hse hw k hk

/-- A stream with no marker at all produces no interval. -/
lemma scanFrom_eq_nil_of_no_markers :
    ∀ (lines : List (List Char)) (se : ℚ) (u : Nat),
      (∀ l ∈ lines, findSub startNeedle l = none ∧ findSub endNeedle l = none) →
      scanFrom se u lines = [] := by
  intro lines
  induction lines with
  | nil => intro se u _; rfl
  | cons l ls ih =>
    intro se u hall
    obtain ⟨h1, h2⟩ := hall l (List.mem_cons_self l ls)
    rw [scanFrom_cons_skip (processLine_other se u (classify_other_of_no_markers h1 h2))]
    exact ih se (u + 1) fun x hx => hall x (List.mem_cons_of_mem l hx)

/-- On a stream whose every line contains the `silence_start` needle, the
silence_end state is never updated: every emitted interval starts at the
initial state. -/
lemma scanFrom_start_only :
    ∀ (lines : List (List Char)) (se : ℚ) (u : Nat),
      (∀ l ∈ lines, (findSub startNeedle l).isSome = true) →
      ∀ k ∈ scanFrom se u lines, k.start = se := by
  intro lines
  induction lines with
  | nil => intro se u _ k hk; exact absurd hk (by simp [scanFrom_nil])
  | cons l ls ih =>
    intro se u hall k hk
    have hl := hall l (List.mem_cons_self l ls)
    have hrest : ∀ x ∈ ls, (findSub startNeedle x).isSome = true :=
      fun x hx => hall x (List.mem_cons_of_mem l hx)
    cases hc : classify l
    case isStart t =>
      by_cases hg : |t - se| > 1 / 100
      · rw [scanFrom_cons_emit (processLine_start_emit se u hc hg)] at hk
        rcases List.mem_cons.mp hk with h | h
        · subst h; rfl
        · exact ih se (u + 1) hrest k h
      · rw [scanFrom_cons_skip (processLine_start_skip se u hc hg)] at hk
        exact ih se (u + 1) hrest k hk
    case isEnd t => exact absurd hc (classify_not_end_of_start hl t)
    case other =>
      rw [scanFrom_cons_skip (processLine_other se u hc)] at hk
      exact ih se (u + 1) hrest k hk

/-- Line indices of emitted intervals are bounded below by the loop index. -/
lemma scanFrom_uniq_lb :
    ∀ (lines : List (List Char)) (se : ℚ) (u : Nat) (k : KeepInterval),
      k ∈ scanFrom se u lines → u ≤ k.uniq := by
  intro lines
  induction lines with
  | nil => intro se u k hk; exact absurd hk (by simp [scanFrom_nil])
  | cons l ls ih =>
    intro se u k hk
    rcases hp : processLine se u l with ⟨se2, ko⟩
    cases ko with
    | some k0 =>
      rw [scanFrom_cons_emit hp] at hk
      rcases List.mem_cons.mp hk with h | h
      · subst h; exact le_of_eq (processLine_emit_eq hp).2.2.symm
      · exact le_trans (Nat.le_succ u) (ih se2 (u + 1) k h)
    | none =>
      rw [scanFrom_cons_skip hp] at hk
      exact le_trans (Nat.le_succ u) (ih se2 (u + 1) k hk)

/-- Line indices of emitted intervals are strictly increasing along the
emission order. -/
lemma scanFrom_uniq_pairwise :
    ∀ (lines : List (List Char)) (se : ℚ) (u : Nat),
      (scanFrom se u lines).Pairwise (fun a b => a.uniq < b.uniq) := by
  intro lines
  induction lines with
  | nil => intro se u; simp [scanFrom_nil]
  | cons l ls ih =>
    intro se u
    rcases hp : processLine se u l with ⟨se2, ko⟩
    cases ko with
    | some k0 =>
      rw [scanFrom_cons_emit hp]
      refine List.Pairwise.cons ?_ (ih se2 (u + 1))
      intro b hb
      have h1 := (processLine_emit_eq hp).2.2
      have h2 := scanFrom_uniq_lb ls se2 (u + 1) b hb
      omega
    | none => rw [scanFrom_cons_skip hp]; exact ih se2 (u + 1)

/-! ### Trace-level lemmas -/

lemma manifestOf_nil : manifestOf [] = [] := rfl

lemma manifestOf_cons_write (s : List Char) (tr : List Effect) :
    manifestOf (Effect.writeManifest s :: tr) = s :: manifestOf tr := by
  simp [manifestOf]

lemma manifestOf_cons_extract (ss t : ℚ) (d : List Char) (tr : List Effect) :
    manifestOf (Effect.extract ss t d :: tr) = manifestOf tr := by
  simp [manifestOf]

lemma extractionsOf_nil : extractionsOf [] = [] := rfl

lemma extractionsOf_cons_write (s : List Char) (tr : List Effect) :
    extractionsOf (Effect.writeManifest s :: tr) = extractionsOf tr := by
  simp [extractionsOf]

lemma extractionsOf_cons_extract (ss t : ℚ) (d : List Char) (tr : List Effect) :
    extractionsOf (Effect.extract ss t d :: tr) = (ss, t, d) :: extractionsOf tr := by
  simp [extractionsOf]

/-- The manifest lines produced by the scan loop are exactly one `file` line
per emitted interval, in emission order. -/
lemma manifestOf_runFrom :
    ∀ (lines : List (List Char)) (se : ℚ) (u : Nat) (td : List Char),
      manifestOf (runFrom se u td lines) =
        (scanFrom se u lines).map (fun k => fileLine td k.uniq) := by
  intro lines
  induction lines with
  | nil => intro se u td; rfl
  | cons l ls ih =>
    intro se u td
    rcases hp : processLine se u l with ⟨se2, ko⟩
    cases ko with
    | some k =>
      rw [runFrom_cons_emit td hp, scanFrom_cons_emit hp,
        manifestOf_cons_write, manifestOf_cons_extract, List.map_cons, ih]
    | none => rw [runFrom_cons_skip td hp, scanFrom_cons_skip hp, ih]

/-- The extraction sub-invocations of the scan loop are exactly one per
emitted interval, in emission order, with `-ss start`, `-t duration` and the
piece path. -/
lemma extractionsOf_runFrom :
    ∀ (lines : List (List Char)) (se : ℚ) (u : Nat) (td : List Char),
      extractionsOf (runFrom se u td lines) =
        (scanFrom se u lines).map (fun k => (k.start, k.duration, piecePath td k.uniq)) := by
  intro lines
  induction lines with
  | nil => intro se u td; rfl
  | cons l ls ih =>
    intro se u td
    rcases hp : processLine se u l with ⟨se2, ko⟩
    cases ko with
    | some k =>
      rw [runFrom_cons_emit td hp, scanFrom_cons_emit hp,
        extractionsOf_cons_write, extractionsOf_cons_extract, List.map_cons, ih]
    | none => rw [runFrom_cons_skip td hp, scanFrom_cons_skip hp, ih]

lemma manifestOf_fullTrace (env : Env) :
    manifestOf (fullTrace env) =
      headerLine :: (keepIntervals env.lines).map (fun k => fileLine env.tempdir k.uniq) := by
  rw [fullTrace]
  show manifestOf (Effect.writeManifest headerLine :: _) = _
  rw [manifestOf_cons_write]
  show headerLine :: manifestOf (runFrom 0 0 env.tempdir env.lines ++ [Effect.concatPieces]) = _
  rw [manifestOf, List.filterMap_append]
  show headerLine :: (manifestOf (runFrom 0 0 env.tempdir env.lines) ++ []) = _
  rw [List.append_nil, manifestOf_runFrom, keepIntervals]

lemma extractionsOf_fullTrace (env : Env) :
    extractionsOf (fullTrace env) =
      (keepIntervals env.lines).map
        (fun k => (k.start, k.duration, piecePath env.tempdir k.uniq)) := by
  rw [fullTrace]
  show extractionsOf (runFrom 0 0 env.tempdir env.lines ++ [Effect.concatPieces]) = _
  rw [extractionsOf, List.filterMap_append]
  show extractionsOf (runFrom 0 0 env.tempdir env.lines) ++ [] = _
  rw [List.append_nil, extractionsOf_runFrom, keepIntervals]

/-! ### Injectivity of the piece naming -/

/-- Value of a hexadecimal digit character (left inverse of `hexDigitChar`). -/
def hexCharVal (c : Char) : Nat := if c.isDigit then c.toNat - 48 else c.toNat - 87

/-- Value of a big-endian string of hexadecimal digits. -/
def hexVal (l : List Char) : Nat := l.foldl (fun a c => 16 * a + hexCharVal c) 0

lemma hexCharVal_hexDigitChar {m : Nat} (h : m < 16) :
    hexCharVal (hexDigitChar m) = m := by
  interval_cases m <;> decide

lemma hexVal_toHexAux : ∀ (fuel n : Nat), n < 16 ^ fuel → hexVal (toHexAux fuel n) = n := by
  intro fuel
  induction fuel with
  | zero =>
    intro n h
    rw [pow_zero] at h
    have hn : n = 0 := by omega
    subst hn; rfl
  | succ f ih =>
    intro n h
    rw [toHexAux]
    by_cases h16 : n < 16
    · rw [if_pos h16]
      simp [hexVal, hexCharVal_hexDigitChar h16]
    · rw [if_neg h16]
      have hd : n / 16 < 16 ^ f := by
        rw [Nat.div_lt_iff_lt_mul (by norm_num)]
        calc n < 16 ^ (f + 1) := h
          _ = 16 ^ f * 16 := by rw [pow_succ]
      have hmod : n % 16 < 16 := Nat.mod_lt n (by norm_num)
      rw [hexVal, List.foldl_append]
      have hih := ih (n / 16) hd
      rw [hexVal] at hih
      rw [hih, List.foldl_cons, List.foldl_nil, hexCharVal_hexDigitChar hmod]
      omega

lemma hexVal_toHex (n : Nat) : hexVal (toHex n) = n := by
  apply hexVal_toHexAux
  calc n < 16 ^ n := Nat.lt_pow_self (by norm_num) n
    _ ≤ 16 ^ (n + 1) := Nat.pow_le_pow_right (by norm_num) (Nat.le_succ n)

lemma hexVal_replicate_zero (k : Nat) (s : List Char) :
    hexVal (List.replicate k '0' ++ s) = hexVal s := by
  induction k with
  | zero => rfl
  | succ m ih =>
    have h0 : (16 * 0 + hexCharVal '0') = 0 := by decide
    rw [List.replicate_succ, List.cons_append, hexVal, List.foldl_cons, h0]
    exact ih

lemma hexPad8_injective : Function.Injective hexPad8 := by
  intro a b h
  have ha := congrArg hexVal h
  rwa [hexPad8, hexPad8, hexVal_replicate_zero, hexVal_replicate_zero,
    hexVal_toHex, hexVal_toHex] at ha

lemma pieceName_injective : Function.Injective pieceName := by
  intro a b h
  rw [pieceName, pieceName] at h
  exact hexPad8_injective (List.append_cancel_left (List.append_cancel_right h))

lemma piecePath_injective (td : List Char) {a b : Nat}
    (h : piecePath td a = piecePath td b) : a = b := by
  rw [piecePath, piecePath] at h
  exact pieceName_injective (List.cons.inj (List.append_cancel_left h)).2

lemma wfFrom_cons_start {l : List Char} {t : ℚ} (se : ℚ) (ls : List (List Char))
    (h : classify l = LineClass.isStart t) :
    wfFrom se (l :: ls) = (decide (se ≤ t) && wfFrom se ls) := by
  simp only [wfFrom, h]

/-! ### Concrete line classifications used by witnesses and counterexamples -/

lemma classify_start_25 :
    classify ("silence_start: 2.500000".data) = LineClass.isStart (5 / 2) := by
  simp +decide [classify, findSub, secondToken, notWs, startNeedle, endNeedle, parseF32,
    parseMantissa, parseExpPart, splitSign, isExpChar, allDigits, digitsToNat, digitVal]
  norm_num

lemma classify_start_0005 :
    classify ("silence_start: 0.005".data) = LineClass.isStart (1 / 200) := by
  simp +decide [classify, findSub, secondToken, notWs, startNeedle, endNeedle, parseF32,
    parseMantissa, parseExpPart, splitSign, isExpChar, allDigits, digitsToNat, digitVal]
  norm_num

lemma classify_end_m5 :
    classify ("silence_end: -5".data) = LineClass.isEnd (-5) := by
  simp +decide [classify, findSub, secondToken, notWs, startNeedle, endNeedle, parseF32,
    parseMantissa, parseExpPart, splitSign, isExpChar, allDigits, digitsToNat, digitVal]

lemma classify_start_m10 :
    classify ("silence_start: -10".data) = LineClass.isStart (-10) := by
  simp +decide [classify, findSub, secondToken, notWs, startNeedle, endNeedle, parseF32,
    parseMantissa, parseExpPart, splitSign, isExpChar, allDigits, digitsToNat, digitVal]

lemma classify_both_markers :
    classify ("silence_end: 5 silence_start: 9".data) = LineClass.isStart 9 := by
  simp +decide [classify, findSub, secondToken, notWs, startNeedle, endNeedle, parseF32,
    parseMantissa, parseExpPart, splitSign, isExpChar, allDigits, digitsToNat, digitVal]

lemma classify_start_1 :
    classify ("silence_start: 1.0".data) = LineClass.isStart 1 := by
  simp +decide [classify, findSub, secondToken, notWs, startNeedle, endNeedle, parseF32,
    parseMantissa, parseExpPart, splitSign, isExpChar, allDigits, digitsToNat, digitVal]

lemma classify_end_3 :
    classify ("silence_end: 3.0".data) = LineClass.isEnd 3 := by
  simp +decide [classify, findSub, secondToken, notWs, startNeedle, endNeedle, parseF32,
    parseMantissa, parseExpPart, splitSign, isExpChar, allDigits, digitsToNat, digitVal]

lemma classify_start_3005 :
    classify ("silence_start: 3.005".data) = LineClass.isStart (601 / 200) := by
  simp +decide [classify, findSub, secondToken, notWs, startNeedle, endNeedle, parseF32,
    parseMantissa, parseExpPart, splitSign, isExpChar, allDigits, digitsToNat, digitVal]
  norm_num

/-! ### Claims -/

/-- Claim C1, amended: for every diagnostic stream whose marker subsequence
is a valid alternation with strictly increasing timestamps AND in which every
silence_start marker differs from the current silence_end state by more than
0.01, the emitted KeepIntervals are exactly the complement of the silent
spans: one interval per silence_start marker, with start the most recently
parsed silence_end (0.0 initially) and duration the difference, in stream
order. (The original claim, without the 0.01 clearance hypothesis, is false:
see the counterexample.) -/
theorem c1_complement_of_cleared_gaps (lines : List (List Char)) (ms : List SpecMarker)
    (hm : markersOf lines = ms)
    (_halt : alternatingB ms = true)
    (_hinc : increasingB ms = true)
    (hgap : gapsLargeB 0 ms = true) :
    (keepIntervals lines).map (fun k => (k.start, k.duration)) = specComplement 0 ms := by
  subst hm
  exact scanFrom_eq_specComplement lines 0 0 hgap

/-- Claim C1 counterexample: the stream consisting of the single marker line
`silence_start: 0.005` is a valid alternation with strictly increasing
timestamps, yet the extractor emits nothing, while the complement of the
silent spans is the single interval (0, 0.005). The claim as stated fails
because of the 0.01 degenerate-gap suppression. -/
theorem c1_counterexample :
    markersOf [("silence_start: 0.005".data)] = [SpecMarker.sstart (1 / 200)] ∧
    alternatingB [SpecMarker.sstart (1 / 200)] = true ∧
    increasingB [SpecMarker.sstart (1 / 200)] = true ∧
    (keepIntervals [("silence_start: 0.005".data)]).map (fun k => (k.start, k.duration)) ≠
      specComplement 0 [SpecMarker.sstart (1 / 200)] := by
  refine ⟨?_, rfl, rfl, ?_⟩
  · rw [markersOf_cons_start [] classify_start_0005, markersOf_nil]
  · rw [keepIntervals,
      scanFrom_cons_skip (processLine_start_skip 0 0 classify_start_0005
        (by norm_num [abs_of_nonneg, abs_of_nonpos])),
      scanFrom_nil]
    simp [specComplement]

/-- Claim C1 witness: the spec's own example. The stream with the single line
`silence_start: 2.500000` satisfies all hypotheses and yields exactly the
KeepInterval with start 0 and duration 2.5. -/
theorem c1_witness :
    markersOf [("silence_start: 2.500000".data)] = [SpecMarker.sstart (5 / 2)] ∧
    alternatingB [SpecMarker.sstart (5 / 2)] = true ∧
    increasingB [SpecMarker.sstart (5 / 2)] = true ∧
    gapsLargeB 0 [SpecMarker.sstart (5 / 2)] = true ∧
    (keepIntervals [("silence_start: 2.500000".data)]).map (fun k => (k.start, k.duration)) =
      specComplement 0 [SpecMarker.sstart (5 / 2)] := by
  have hm : markersOf [("silence_start: 2.500000".data)] = [SpecMarker.sstart (5 / 2)] := by
    rw [markersOf_cons_start [] classify_start_25, markersOf_nil]
  have hgap : gapsLargeB 0 [SpecMarker.sstart (5 / 2)] = true := by
    norm_num [gapsLargeB, decide_eq_true_eq, abs_of_nonneg, abs_of_nonpos]
  exact ⟨hm, rfl, rfl, hgap, c1_complement_of_cleared_gaps _ _ hm rfl rfl hgap⟩

/-- Claim C2, amended: the invariant `duration > 0 ∧ start >= 0` holds for
every emitted KeepInterval provided the stream is well formed: every parsed
silence_end timestamp is nonnegative and every parsed silence_start
timestamp is at least the current last_silence_end. Without that hypothesis
the invariant fails (the code emits whenever `|gap| > 0.01`, including
negative gaps): see the counterexample. -/
theorem c2_invariant_under_wf (lines : List (List Char))
    (hw : wfFrom 0 lines = true) :
    ∀ k ∈ keepIntervals lines, 0 < k.duration ∧ 0 ≤ k.start :=
  scanFrom_wf_pos lines 0 0 le_rfl hw

/-- Claim C2 counterexample: on the stream `silence_end: -5`,
`silence_start: -10` the extractor emits the interval with start -5 and
duration -5, violating both `duration > 0` and `start >= 0`. -/
theorem c2_counterexample :
    ¬ (∀ k ∈ keepIntervals [("silence_end: -5".data), ("silence_start: -10".data)],
        0 < k.duration ∧ 0 ≤ k.start) := by
  intro hall
  have hk : (⟨-5, -5, 1⟩ : KeepInterval) ∈
      keepIntervals [("silence_end: -5".data), ("silence_start: -10".data)] := by
    rw [keepIntervals,
      scanFrom_cons_skip (processLine_end 0 0 classify_end_m5),
      scanFrom_cons_emit (processLine_start_emit (-5) 1 classify_start_m10
        (by norm_num [abs_of_nonneg, abs_of_nonpos]))]
    have : ((-10 : ℚ) - (-5)) = -5 := by norm_num
    rw [this]
    exact List.mem_cons_self _ _
  have h := (hall _ hk).1
  norm_num at h

/-- Claim C2 witness: the single-line stream `silence_start: 2.500000` is
well formed and its emitted interval has positive duration and nonnegative
start. -/
theorem c2_witness :
    wfFrom 0 [("silence_start: 2.500000".data)] = true ∧
    ∀ k ∈ keepIntervals [("silence_start: 2.500000".data)],
      0 < k.duration ∧ 0 ≤ k.start := by
  have hw : wfFrom 0 [("silence_start: 2.500000".data)] = true := by
    rw [wfFrom_cons_start 0 [] classify_start_25]
    norm_num [wfFrom]
  exact ⟨hw, c2_invariant_under_wf _ hw⟩

/-- Claim C3, amended: the precedence is the reverse of the claim. The
silence_start rule takes precedence over the silence_end rule: a line
containing the `silence_start: ` marker is handled entirely by the start
rule and never updates last_silence_end, even when it also contains a
parsable `silence_end: ` marker; only a line without the start marker is
tested for silence_end. -/
theorem c3_start_precedence (se : ℚ) (u : Nat) (line : List Char)
    (h : (findSub startNeedle line).isSome = true) :
    (processLine se u line).1 = se := by
  cases hc : classify line
  case isStart t =>
    by_cases hg : |t - se| > 1 / 100
    · rw [processLine_start_emit se u hc hg]
    · rw [processLine_start_skip se u hc hg]
  case isEnd t => exact absurd hc (classify_not_end_of_start h t)
  case other => rw [processLine_other se u hc]

/-- Claim C3 counterexample: on the line
`silence_end: 5 silence_start: 9` (both markers, both timestamps parsable)
the claim predicts that last_silence_end is updated to 5 and nothing is
emitted; the code instead leaves the state at 0 and emits the interval with
start 0 and duration 9, because the silence_start branch is tried first. -/
theorem c3_counterexample :
    (processLine 0 0 ("silence_end: 5 silence_start: 9".data)).1 = 0 ∧
    (processLine 0 0 ("silence_end: 5 silence_start: 9".data)).2 =
      some ⟨0, 9, 0⟩ := by
  rw [processLine_start_emit 0 0 classify_both_markers
    (by norm_num [abs_of_nonneg, abs_of_nonpos])]
  norm_num

/-- Claim C3 witness: on a line containing both markers the state is
preserved. -/
theorem c3_witness :
    ((findSub startNeedle ("silence_end: 5 silence_start: 9".data)).isSome = true) ∧
    (processLine 7 0 ("silence_end: 5 silence_start: 9".data)).1 = 7 :=
  ⟨by decide, c3_start_precedence 7 0 _ (by decide)⟩

/-- Claim C4 (confirmed): for a well-formed silence_start line, no interval
is emitted exactly when the candidate timestamp is within 0.01 of the
current last_silence_end; when the gap exceeds 0.01 in absolute value the
interval (last_silence_end, gap) is emitted with the current line index. -/
theorem c4_degenerate_gap_suppression (se : ℚ) (u : Nat) (line : List Char) (t : ℚ)
    (h : classify line = LineClass.isStart t) :
    ((processLine se u line).2 = none ↔ |t - se| ≤ 1 / 100) ∧
    (|t - se| > 1 / 100 → processLine se u line = (se, some ⟨se, t - se, u⟩)) := by
  refine ⟨⟨?_, ?_⟩, ?_⟩
  · intro hn
    by_contra hgt
    rw [not_le] at hgt
    rw [processLine_start_emit se u h hgt] at hn
    exact Option.noConfusion hn
  · intro hle
    rw [processLine_start_skip se u h (not_lt.mpr hle)]
  · intro hg
    exact processLine_start_emit se u h hg

/-- Claim C4 witness: the spec's example. After `silence_start: 1.0`,
`silence_end: 3.0`, the line `silence_start: 3.005` has gap 0.005 and is
suppressed; the whole stream emits only the interval (0, 1). -/
theorem c4_witness :
    classify ("silence_start: 3.005".data) = LineClass.isStart (601 / 200) ∧
    (((processLine 3 2 ("silence_start: 3.005".data)).2 = none ↔
        |(601 / 200 : ℚ) - 3| ≤ 1 / 100) ∧
      (|(601 / 200 : ℚ) - 3| > 1 / 100 →
        processLine 3 2 ("silence_start: 3.005".data) =
          (3, some ⟨3, (601 / 200 : ℚ) - 3, 2⟩))) ∧
    keepIntervals [("silence_start: 1.0".data), ("silence_end: 3.0".data),
        ("silence_start: 3.005".data)] = [⟨0, 1, 0⟩] := by
  refine ⟨classify_start_3005, c4_degenerate_gap_suppression 3 2 _ _ classify_start_3005, ?_⟩
  rw [keepIntervals,
    scanFrom_cons_emit (processLine_start_emit 0 0 classify_start_1
      (by norm_num [abs_of_nonneg, abs_of_nonpos])),
    scanFrom_cons_skip (processLine_end 0 1 classify_end_3),
    scanFrom_cons_skip (processLine_start_skip 3 2 classify_start_3005
      (by norm_num [abs_of_nonneg, abs_of_nonpos])),
    scanFrom_nil]
  norm_num

/-- Claim C5 (confirmed): a diagnostic stream containing neither marker
yields no KeepInterval, no extraction sub-invocation, and a manifest that
consists of the version header line only. -/
theorem c5_no_markers_no_output (env : Env)
    (h : ∀ l ∈ env.lines, findSub startNeedle l = none ∧ findSub endNeedle l = none) :
    keepIntervals env.lines = [] ∧
    extractionsOf (fullTrace env) = [] ∧
    manifestOf (fullTrace env) = [headerLine] := by
  have hnil : keepIntervals env.lines = [] := scanFrom_eq_nil_of_no_markers env.lines 0 0 h
  refine ⟨hnil, ?_, ?_⟩
  · rw [extractionsOf_fullTrace, hnil]; rfl
  · rw [manifestOf_fullTrace, hnil]; rfl

/-- Claim C5 witness: a typical progress line carries no marker and produces
nothing. -/
theorem c5_witness :
    (∀ l ∈ [("frame=  100 fps= 25 q=-0.0 size=N/A".data)],
      findSub startNeedle l = none ∧ findSub endNeedle l = none) ∧
    (keepIntervals [("frame=  100 fps= 25 q=-0.0 size=N/A".data)] = [] ∧
      extractionsOf (fullTrace ⟨false, "/tmp/jc".data,
        [("frame=  100 fps= 25 q=-0.0 size=N/A".data)]⟩) = [] ∧
      manifestOf (fullTrace ⟨false, "/tmp/jc".data,
        [("frame=  100 fps= 25 q=-0.0 size=N/A".data)]⟩) = [headerLine]) :=
  ⟨by decide, c5_no_markers_no_output ⟨false, "/tmp/jc".data, _⟩ (by decide)⟩

/-- Claim C6 (confirmed): a line whose marker token is missing or
unparsable (classified `other`, like every markerless line) neither updates
last_silence_end nor emits an interval. The per-line step of the embedding
is a total function by construction, which models the absence of
panics/aborts on such lines. -/
theorem c6_malformed_marker_noop (se : ℚ) (u : Nat) (line : List Char)
    (h : classify line = LineClass.other) :
    processLine se u line = (se, none) :=
  processLine_other se u h

/-- Claim C6 witness: a silence_start marker followed by a non-numeric token
is classified `other` and the step is a no-op. -/
theorem c6_witness :
    classify ("silence_start: abc".data) = LineClass.other ∧
    processLine 7 3 ("silence_start: abc".data) = (7, none) :=
  ⟨by decide, c6_malformed_marker_noop 7 3 _ (by decide)⟩

/-- Claim C7 (confirmed): after any scan, the manifest is exactly the version
header line followed by one `file <path>` line per emitted KeepInterval, in
emission order, each path being the textual concatenation of the temporary
directory and the piece name with no additional escaping. -/
theorem c7_manifest_format (env : Env) :
    manifestOf (fullTrace env) =
      headerLine :: (keepIntervals env.lines).map (fun k => fileLine env.tempdir k.uniq) :=
  manifestOf_fullTrace env

/-- Claim C8 (confirmed): when the output path already exists, the run exits
with code 1 and performs no side effect at all (in particular no temporary
directory, no manifest file, no sub-clip). -/
theorem c8_no_overwrite_guard (env : Env) (h : env.outputExists = true) :
    mainRun env = (some 1, []) := by
  rw [mainRun, if_pos h]

/-- Claim C8 witness. -/
theorem c8_witness :
    (Env.mk true ("/tmp/jc".data) [("silence_start: 2.5".data)]).outputExists = true ∧
    mainRun (Env.mk true ("/tmp/jc".data) [("silence_start: 2.5".data)]) = (some 1, []) :=
  ⟨rfl, c8_no_overwrite_guard _ rfl⟩

/-- Claim C9 (confirmed): the sub-clip paths of the emitted intervals are
pairwise distinct within a run: the line index stamped into each interval is
strictly increasing along the emission order, and the zero-padded lowercase
hexadecimal rendering used in the piece file name is injective. -/
theorem c9_piece_paths_distinct (tempdir : List Char) (lines : List (List Char)) :
    ((keepIntervals lines).map (fun k => piecePath tempdir k.uniq)).Pairwise (· ≠ ·) := by
  refine List.Pairwise.map _ ?_ (scanFrom_uniq_pairwise lines 0 0)
  intro a b hab heq
  exact absurd (piecePath_injective tempdir heq) (by omega)

/-- Claim C10 (confirmed): processing a silence_start line never modifies
last_silence_end; on a stream of lines that all contain the silence_start
needle, every emitted interval has the same start, namely the initial state
(so two such consecutive emissions overlap). -/
theorem c10_start_keeps_state (se : ℚ) (u : Nat) (lines : List (List Char))
    (h : ∀ l ∈ lines, (findSub startNeedle l).isSome = true) :
    ∀ k ∈ scanFrom se u lines, k.start = se :=
  scanFrom_start_only lines se u h

/-- Claim C10 witness: two consecutive silence_start lines with no
intervening silence_end both produce intervals starting at 0. -/
theorem c10_witness :
    (∀ l ∈ [("silence_start: 5".data), ("silence_start: 9".data)],
      (findSub startNeedle l).isSome = true) ∧
    ∀ k ∈ scanFrom 0 0 [("silence_start: 5".data), ("silence_start: 9".data)],
      k.start = 0 :=
  ⟨by decide, c10_start_keeps_state 0 0 _ (by decide)⟩

